import Mathlib

/-!
Verification of the SR-UKF parameter-estimation core
(src/src/sysid/sr_ukf_parameter_estimation.c).

Modelling conventions:
* All buffers are flattened row-major, embedded as total functions `ℕ → ℚ`
  (the C scalar type is `float`; the spec states its properties as exact
  arithmetic identities, so we work over exact rationals).
* Out-of-extent indices of freshly written buffers model uninitialized
  stack memory; we fix them to `0` (the code never reads them).
* Loop counters are `uint8_t` in the C source; their arithmetic agrees with
  `ℕ` for every `L ≤ 127`, and the spec fixes `L` to "a handful to a few
  dozen" parameters, so the embedding uses `ℕ`.
* `sqrtf` has no exact rational counterpart; it is passed as an explicit
  function parameter, so every theorem holds for an arbitrary square-root
  realization.
* The dense linear-algebra collaborators (`tran`, `mul`, `qr`, `cholupdate`,
  `inv`) are declared out of scope by the spec and their sources are not in
  the repository snapshot; `tran` and `mul` have standard contracts and are
  defined concretely, `qr` and `cholupdate` are abstract function parameters,
  and `inv` is modelled from the spec (fails iff singular).
-/

namespace SrUkf

/-- Modelled from the spec: `matrix_transpose` — standard contract.
The C `tran(A, m, n)` transposes an `m×n` row-major buffer in place into an
`n×m` buffer: `new[j*m+i] = old[i*n+j]`. -/
def tranF (A : ℕ → ℚ) (m n : ℕ) : ℕ → ℚ :=
  fun k => if k < m * n then A ((k % m) * n + k / m) else A k

/-- Modelled from the spec: `matrix_multiply` — standard contract.
The C `mul(A, B, C, m, n, p)` writes `C[i*p+j] = Σ_k A[i*n+k]·B[k*p+j]`
into the `m×p` output buffer. -/
def mulF (A B : ℕ → ℚ) (m n p : ℕ) : ℕ → ℚ :=
  fun k =>
    if k < m * p then
      ∑ t ∈ Finset.range n, A ((k / p) * n + t) * B (t * p + k % p)
    else 0

/-- `lambda = alpha*alpha*(L + kappa) - L` as computed by `create_weights`
(line 97) and recomputed verbatim by `create_sigma_point_matrix` (line 128). -/
def create_weights_lambda (alpha kappa : ℚ) (L : ℕ) : ℚ :=
  alpha * alpha * ((L : ℚ) + kappa) - (L : ℚ)

/-- The `Wm` output buffer of `create_weights` (lines 91-108).
`Wm0` is the caller's buffer content; only indices `< 2L+1` are written. -/
def create_weights_Wm (Wm0 : ℕ → ℚ) (alpha kappa : ℚ) (L : ℕ) : ℕ → ℚ :=
  fun i =>
    if i = 0 then
      create_weights_lambda alpha kappa L /
        ((L : ℚ) + create_weights_lambda alpha kappa L)
    else if i < 2 * L + 1 then
      (1 / 2) / ((L : ℚ) + create_weights_lambda alpha kappa L)
    else Wm0 i

/-- The `Wc` output buffer of `create_weights` (lines 91-108).
`Wc[0] = Wm[0] + 1 - alpha² + beta`; `Wc[i] = 0.5/(L+lambda)` for
`1 ≤ i < 2L+1`. -/
def create_weights_Wc (Wc0 : ℕ → ℚ) (alpha beta kappa : ℚ) (L : ℕ) : ℕ → ℚ :=
  fun i =>
    if i = 0 then
      create_weights_lambda alpha kappa L /
        ((L : ℚ) + create_weights_lambda alpha kappa L) + 1 -
        alpha * alpha + beta
    else if i < 2 * L + 1 then
      (1 / 2) / ((L : ℚ) + create_weights_lambda alpha kappa L)
    else Wc0 i

/-- The set of flattened `Sw` indices written by the loop of
`scale_Sw_with_lambda_rls_factor` (lines 110-118): `for (i = 0; i < M; i++)`
with `M = 2*L`. -/
def scale_Sw_writeSet (L : ℕ) : Finset ℕ := Finset.range (2 * L)

/-- `scale_Sw_with_lambda_rls_factor` (lines 110-118): multiplies the first
`2L` flattened entries of `Sw` by `1.0f / sqrtf(lambda_rls)`. -/
def scale_Sw_with_lambda_rls_factor (sqrtf : ℚ → ℚ) (Sw : ℕ → ℚ)
    (lambda_rls : ℚ) (L : ℕ) : ℕ → ℚ :=
  fun k => if k < 2 * L then Sw k * (1 / sqrtf lambda_rls) else Sw k

/-- `create_sigma_point_matrix` (lines 120-144). `W` is `L×N` row-major with
`N = 2L+1`; column `0` is `what`, columns `1..L` add `gamma·Sw[i*L+j-1]`,
columns `L+1..2L` subtract `gamma·Sw[i*L+j-(L+1)]`, where
`gamma = sqrtf(L + lambda)`. `W0` is the uninitialized stack buffer. -/
def create_sigma_point_matrix (sqrtf : ℚ → ℚ) (W0 what Sw : ℕ → ℚ)
    (alpha kappa : ℚ) (L : ℕ) : ℕ → ℚ :=
  fun k =>
    if k < L * (2 * L + 1) then
      let i := k / (2 * L + 1)
      let j := k % (2 * L + 1)
      let gamma := sqrtf ((L : ℚ) + create_weights_lambda alpha kappa L)
      if j = 0 then what i
      else if j < L + 1 then what i + gamma * Sw (i * L + (j - 1))
      else what i - gamma * Sw (i * L + (j - (L + 1)))
    else W0 k

/-- `compute_transistion_function` (lines 146-169): for each column `j` of
`W`, the column is copied into `w` and `G(dw, x, w)` writes column `j` of
`D`. `G` is embedded as a pure function `x ↦ w ↦ dw` (the C contract
requires `G` not to retain state nor write `x`). `D0` is the uninitialized
stack buffer. -/
def compute_transistion_function (G : (ℕ → ℚ) → (ℕ → ℚ) → (ℕ → ℚ))
    (D0 W x : ℕ → ℚ) (L : ℕ) : ℕ → ℚ :=
  fun k =>
    if k < L * (2 * L + 1) then
      G x (fun i => W (i * (2 * L + 1) + k % (2 * L + 1))) (k / (2 * L + 1))
    else D0 k

/-- `multiply_sigma_point_matrix_to_weights` (lines 171-183):
`dhat[i] = Σ_{j<2L+1} Wm[j]·D[i*N+j]` after the `memset` clear. -/
def multiply_sigma_point_matrix_to_weights (D Wm : ℕ → ℚ) (L : ℕ) : ℕ → ℚ :=
  fun i =>
    if i < L then ∑ j ∈ Finset.range (2 * L + 1), Wm j * D (i * (2 * L + 1) + j)
    else 0

/-- The augmented matrix `AT` (`L×M` row-major, `M = 2L+L`) built by
`create_state_estimation_error_covariance_matrix` (lines 197-208):
columns `j < 2L` hold `sqrtf(|Wc[1]|)·(D[i*N+j+1] - dhat[i])`, columns
`2L ≤ j < 3L` hold `sqrtf(Re[i*L+(j-2L)])`. -/
def create_cov_AT (sqrtf : ℚ → ℚ) (Wc D dhat Re : ℕ → ℚ) (L : ℕ) : ℕ → ℚ :=
  fun k =>
    if k < L * (2 * L + L) then
      let i := k / (2 * L + L)
      let j := k % (2 * L + L)
      if j < 2 * L then sqrtf |Wc 1| * (D (i * (2 * L + 1) + j + 1) - dhat i)
      else sqrtf (Re (i * L + (j - 2 * L)))
    else 0

/-- `create_state_estimation_error_covariance_matrix` (lines 185-228):
builds `AT`, transposes it in place, runs the reduced QR (only the `R`
factor, an `M×L` buffer, is consumed), copies the first `L*L` floats of `R`
into `Sd`, and finishes with one rank-one Cholesky update of `Sd` by the
center-column residual `b`, in the `+` direction unless `Wc[0] < 0`.
`qrR A rows cols` is the abstract `R` factor of the out-of-scope `qr`
collaborator; `cholupdate S v dim isUpdate` the abstract rank-one update. -/
def create_state_estimation_error_covariance_matrix (sqrtf : ℚ → ℚ)
    (qrR : (ℕ → ℚ) → ℕ → ℕ → (ℕ → ℚ))
    (cholupdate : (ℕ → ℚ) → (ℕ → ℚ) → ℕ → Bool → (ℕ → ℚ))
    (Wc D dhat Re : ℕ → ℚ) (L : ℕ) : ℕ → ℚ :=
  let AT := create_cov_AT sqrtf Wc D dhat Re L
  let A := tranF AT L (2 * L + L)
  let R := qrR A (2 * L + L) L
  let Sd := fun k => if k < L * L then R k else 0
  let b := fun i => if i < L then D (i * (2 * L + 1)) - dhat i else 0
  cholupdate Sd b L (if Wc 0 < 0 then false else true)

/-- `create_state_cross_covariance_matrix` (lines 230-261): centers `W` and
`D` in place, forms the diagonal matrix of `Wc`, and computes
`Pwd = W · diag(Wc) · Dᵗ` via `tran` and two `mul` calls. Only the `Pwd`
result is returned (the centered `W`/`D` are dead after this call). -/
def create_state_cross_covariance_matrix (Wc W D what dhat : ℕ → ℚ)
    (L : ℕ) : ℕ → ℚ :=
  let N := 2 * L + 1
  let Wcent := fun k => if k < L * N then W k - what (k / N) else W k
  let Dcent := fun k => if k < L * N then D k - dhat (k / N) else D k
  let diagonal_W := fun k =>
    if k < N * N then (if k / N = k % N then Wc (k / N) else 0) else 0
  let DT := tranF Dcent L N
  let diagonal_WD := mulF diagonal_W DT N N L
  mulF Wcent diagonal_WD L N L

/-- The flattened `n×n` buffer read as a Mathlib matrix. -/
def toMatrix (A : ℕ → ℚ) (n : ℕ) : Matrix (Fin n) (Fin n) ℚ :=
  Matrix.of fun i j => A (i.1 * n + j.1)

/-- Determinant of a flattened `n×n` buffer. -/
def detF (A : ℕ → ℚ) (n : ℕ) : ℚ := (toMatrix A n).det

/-- Modelled from the spec: `matrix_inverse(A, dim) → A⁻¹ — fails if A
singular` (the `inv.c` source is not in the repository snapshot; only its
contract is specified). Over exact rationals an LUP-based inverse succeeds
exactly when the determinant is non-zero, and then returns
`(det A)⁻¹ · adjugate A`. -/
def inv (A : ℕ → ℚ) (n : ℕ) : Option (ℕ → ℚ) :=
  if detF A n = 0 then none
  else
    some (fun k =>
      if h : k < n * n then
        (detF A n)⁻¹ *
          (toMatrix A n).adjugate ⟨k / n, Nat.div_lt_of_lt_mul h⟩
            ⟨k % n, Nat.mod_lt _ (by
              rcases Nat.eq_zero_or_pos n with h0 | h0
              · subst h0; simp at h
              · exact h0)⟩
      else 0)

/-- `update_state_covarariance_matrix_and_state_estimation_vector`
(lines 264-311): copies `Sd`, transposes the copy, multiplies to `SdᵗSd`,
inverts it in place via `inv` — the C call discards `inv`'s status, so on
failure the subsequent reads see unspecified buffer contents, modelled by
the `recover` parameter — then `K = Pwd·(SdᵗSd)⁻¹`,
`what += K·(d - dhat)`, `U = K·Sd`, and one rank-one Cholesky downdate of
`Sw` per column of `U`, left to right. Returns `(Sw', what')`. -/
def update_state_covarariance_matrix_and_state_estimation_vector
    (cholupdate : (ℕ → ℚ) → (ℕ → ℚ) → ℕ → Bool → (ℕ → ℚ)) (recover : ℕ → ℚ)
    (Sw what dhat d Sd Pwd : ℕ → ℚ) (L : ℕ) : (ℕ → ℚ) × (ℕ → ℚ) :=
  let SdT := tranF Sd L L
  let SdTSd := mulF SdT Sd L L L
  let SdTSdInv := (inv SdTSd L).getD recover
  let K := mulF Pwd SdTSdInv L L L
  let ddhat := fun i => if i < L then d i - dhat i else 0
  let Kd := mulF K ddhat L L 1
  let what1 := fun i => if i < L then what i + Kd i else what i
  let U := mulF K Sd L L L
  let Sw1 := (List.range L).foldl
    (fun S j => cholupdate S (fun i => if i < L then U (i * L + j) else 0) L false) Sw
  (Sw1, what1)

/-- The five caller-owned buffers of `sr_ukf_parameter_estimation`. -/
structure UkfState where
  d : ℕ → ℚ
  what : ℕ → ℚ
  Re : ℕ → ℚ
  x : ℕ → ℚ
  Sw : ℕ → ℚ

/-- `sr_ukf_parameter_estimation` (lines 45-89): one estimation tick,
composing the six stages in source order with `kappa = 3 - L`. The input
record carries the caller-owned buffers; `what` and `Sw` come back updated,
`d`, `Re` and `x` are only read. -/
def sr_ukf_parameter_estimation (sqrtf : ℚ → ℚ)
    (qrR : (ℕ → ℚ) → ℕ → ℕ → (ℕ → ℚ))
    (cholupdate : (ℕ → ℚ) → (ℕ → ℚ) → ℕ → Bool → (ℕ → ℚ)) (recover : ℕ → ℚ)
    (G : (ℕ → ℚ) → (ℕ → ℚ) → (ℕ → ℚ)) (lambda_rls : ℚ)
    (alpha beta : ℚ) (L : ℕ) (s : UkfState) : UkfState :=
  let kappa := (3 : ℚ) - (L : ℚ)
  let Wc := create_weights_Wc (fun _ => 0) alpha beta kappa L
  let Wm := create_weights_Wm (fun _ => 0) alpha kappa L
  let Sw1 := scale_Sw_with_lambda_rls_factor sqrtf s.Sw lambda_rls L
  let W := create_sigma_point_matrix sqrtf (fun _ => 0) s.what Sw1 alpha kappa L
  let D := compute_transistion_function G (fun _ => 0) W s.x L
  let dhat := multiply_sigma_point_matrix_to_weights D Wm L
  let Sd := create_state_estimation_error_covariance_matrix sqrtf qrR cholupdate Wc D dhat s.Re L
  let Pwd := create_state_cross_covariance_matrix Wc W D s.what dhat L
  let upd := update_state_covarariance_matrix_and_state_estimation_vector
    cholupdate recover Sw1 s.what dhat s.d Sd Pwd L
  { d := s.d, what := upd.2, Re := s.Re, x := s.x, Sw := upd.1 }

/-- Reference definition following the claim's words: the transposed
augmented matrix handed to QR, an `M×L` (`M = 2L+L`) row-major matrix whose
row `r`, column `c` entry is, for `r < 2L`,
`sqrt(|Wc[1]|)·(D[c, r+1] − dhat[c])` (columns `1..2L` of `D`, center
column excluded), and for `2L ≤ r < 3L` the element-wise square root
`sqrt(Re[c, r−2L])`. -/
def measurement_cov_A_spec (sqrtf : ℚ → ℚ) (Wc D dhat Re : ℕ → ℚ)
    (L : ℕ) : ℕ → ℚ :=
  fun k =>
    if k < L * (2 * L + L) then
      let r := k / L
      let c := k % L
      if r < 2 * L then sqrtf |Wc 1| * (D (c * (2 * L + 1) + r + 1) - dhat c)
      else sqrtf (Re (c * L + (r - 2 * L)))
    else 0

/-- Reference definition following the claim's words: `Sd` is the leading
`L×L` block of the `R` factor of the QR decomposition of the transposed
augmented matrix, followed by one rank-one Cholesky update with the
center-column residual `b[i] = D[i,0] − dhat[i]`, applied as an addition
exactly when `Wc[0]` is non-negative. -/
def measurement_cov_Sd_spec (sqrtf : ℚ → ℚ)
    (qrR : (ℕ → ℚ) → ℕ → ℕ → (ℕ → ℚ))
    (cholupdate : (ℕ → ℚ) → (ℕ → ℚ) → ℕ → Bool → (ℕ → ℚ))
    (Wc D dhat Re : ℕ → ℚ) (L : ℕ) : ℕ → ℚ :=
  let A := measurement_cov_A_spec sqrtf Wc D dhat Re L
  let R := qrR A (2 * L + L) L
  let Sd := fun k => if k < L * L then R k else 0
  let b := fun i => if i < L then D (i * (2 * L + 1)) - dhat i else 0
  cholupdate Sd b L (decide (0 ≤ Wc 0))

/-- The `Sd'Sd` product the corrector inverts (lines 269-281): the `Sd`
copy is transposed and multiplied back onto `Sd`. -/
def corrector_SdTSd (Sd : ℕ → ℚ) (L : ℕ) : ℕ → ℚ :=
  mulF (tranF Sd L L) Sd L L L

/-- The Kalman gain buffer `K = Pwd · inv(Sd'Sd)` of the corrector
(lines 283-286); `recover` is the unspecified buffer content left behind
when `inv` fails (the C code discards the failure status). -/
def corrector_K (recover Sd Pwd : ℕ → ℚ) (L : ℕ) : ℕ → ℚ :=
  mulF Pwd ((inv (corrector_SdTSd Sd L) L).getD recover) L L L

/-- The `U = K·Sd` buffer of the corrector (lines 298-301). -/
def corrector_U (recover Sd Pwd : ℕ → ℚ) (L : ℕ) : ℕ → ℚ :=
  mulF (corrector_K recover Sd Pwd L) Sd L L L

/-- Square-root realization for the concrete failing run: exact on the
values it is queried at (`sqrt(1/4) = 1/2`, `sqrt 0 = 0`). -/
def cex_sqrtf : ℚ → ℚ := fun q => if q = 1 / 4 then 1 / 2 else 0

/-- QR realization for the concrete failing run: it is only queried on the
zero matrix, whose reduced `R` factor is the zero matrix. -/
def cex_qrR : (ℕ → ℚ) → ℕ → ℕ → (ℕ → ℚ) := fun _ _ _ => fun _ => 0

/-- Cholesky-update realization for the concrete failing run: it is only
queried with the zero vector, for which the rank-one update/downdate is the
identity. -/
def cex_cholupdate : (ℕ → ℚ) → (ℕ → ℚ) → ℕ → Bool → (ℕ → ℚ) :=
  fun S _ _ _ => S

/-- Post-failure `inv` buffer content for the concrete failing run (the
contract leaves it unspecified). -/
def cex_recover : ℕ → ℚ := fun _ => 1

/-- Transition function for the concrete failing run: constant zero. -/
def cex_G : (ℕ → ℚ) → (ℕ → ℚ) → (ℕ → ℚ) := fun _ _ => fun _ => 0

/-- Caller buffers for the concrete failing run: `L = 1`, `d = [1]`,
`what = [0]`, `Re = [0]`, `x = [0]`, `Sw = [1]`. -/
def cex_state : UkfState :=
  ⟨fun _ => 1, fun _ => 0, fun _ => 0, fun _ => 0, fun _ => 1⟩

/-- The tick-internal `Wc` of the failing run (`alpha = 1`, `beta = 2`,
`kappa = 3 − L`, `L = 1`), as computed at line 57. -/
def cex_Wc : ℕ → ℚ := create_weights_Wc (fun _ => 0) 1 2 ((3 : ℚ) - (1 : ℚ)) 1

/-- The tick-internal `Wm` of the failing run, as computed at line 57. -/
def cex_Wm : ℕ → ℚ := create_weights_Wm (fun _ => 0) 1 ((3 : ℚ) - (1 : ℚ)) 1

/-- The tick-internal scaled `Sw` of the failing run (`lambda_rls = 1/4`),
as computed at line 60. -/
def cex_Sw1 : ℕ → ℚ :=
  scale_Sw_with_lambda_rls_factor cex_sqrtf cex_state.Sw (1 / 4) 1

/-- The tick-internal sigma-point matrix of the failing run (line 65). -/
def cex_W : ℕ → ℚ :=
  create_sigma_point_matrix cex_sqrtf (fun _ => 0) cex_state.what cex_Sw1 1
    ((3 : ℚ) - (1 : ℚ)) 1

/-- The tick-internal `D` matrix of the failing run (line 70). -/
def cex_D : ℕ → ℚ :=
  compute_transistion_function cex_G (fun _ => 0) cex_W cex_state.x 1

/-- The tick-internal `dhat` of the failing run (line 75). -/
def cex_dhat : ℕ → ℚ := multiply_sigma_point_matrix_to_weights cex_D cex_Wm 1

/-- The tick-internal `Sd` of the failing run (line 80). -/
def cex_Sd : ℕ → ℚ :=
  create_state_estimation_error_covariance_matrix cex_sqrtf cex_qrR
    cex_cholupdate cex_Wc cex_D cex_dhat cex_state.Re 1

/-- C5: the weight generator, given `alpha`, `beta`, `kappa` and `L` with
`lambda = alpha²(L+kappa) − L`, produces `Wm[0] = lambda/(L+lambda)`,
`Wc[0] = Wm[0] + 1 − alpha² + beta`, and `Wm[i] = Wc[i] = 0.5/(L+lambda)`
for every `1 ≤ i ≤ 2L`. -/
theorem create_weights_matches_formulas (Wm0 Wc0 : ℕ → ℚ)
    (alpha beta kappa : ℚ) (L : ℕ) :
    create_weights_Wm Wm0 alpha kappa L 0 =
      create_weights_lambda alpha kappa L /
        ((L : ℚ) + create_weights_lambda alpha kappa L) ∧
    create_weights_Wc Wc0 alpha beta kappa L 0 =
      create_weights_Wm Wm0 alpha kappa L 0 + 1 - alpha * alpha + beta ∧
    ∀ i, 1 ≤ i → i ≤ 2 * L →
      create_weights_Wm Wm0 alpha kappa L i =
        (1 / 2) / ((L : ℚ) + create_weights_lambda alpha kappa L) ∧
      create_weights_Wc Wc0 alpha beta kappa L i =
        create_weights_Wm Wm0 alpha kappa L i := by
  refine ⟨rfl, rfl, fun i h1 h2 => ?_⟩
  have hne : i ≠ 0 := by omega
  have hlt : i < 2 * L + 1 := by omega
  simp [create_weights_Wm, create_weights_Wc, hne, hlt]

/-- Witness for `create_weights_matches_formulas` at
`alpha = 1, beta = 2, kappa = 2, L = 1, i = 1`. -/
theorem create_weights_matches_formulas_witness :
    create_weights_Wm (fun _ => 0) 1 2 1 1 =
      (1 / 2) / ((1 : ℚ) + create_weights_lambda 1 2 1) ∧
    create_weights_Wc (fun _ => 0) 1 2 2 1 1 =
      create_weights_Wm (fun _ => 0) 1 2 1 1 :=
  (create_weights_matches_formulas (fun _ => 0) (fun _ => 0) 1 2 2 1).2.2 1
    (by norm_num) (by norm_num)

/-- C6: for every `L` with `L + lambda ≠ 0`, the `2L+1` mean weights sum to
`1` and `Wc[j] = Wm[j]` for every `1 ≤ j ≤ 2L`. -/
theorem create_weights_normalization (Wm0 Wc0 : ℕ → ℚ)
    (alpha beta kappa : ℚ) (L : ℕ)
    (h : (L : ℚ) + create_weights_lambda alpha kappa L ≠ 0) :
    (∑ j ∈ Finset.range (2 * L + 1), create_weights_Wm Wm0 alpha kappa L j) = 1 ∧
    ∀ j, 1 ≤ j → j ≤ 2 * L →
      create_weights_Wc Wc0 alpha beta kappa L j =
        create_weights_Wm Wm0 alpha kappa L j := by
  constructor
  · rw [Finset.sum_range_succ']
    have hrest : ∀ i ∈ Finset.range (2 * L),
        create_weights_Wm Wm0 alpha kappa L (i + 1) =
          (1 / 2) / ((L : ℚ) + create_weights_lambda alpha kappa L) := by
      intro i hi
      simp only [Finset.mem_range] at hi
      have h1 : i + 1 ≠ 0 := by omega
      have h2 : i + 1 < 2 * L + 1 := by omega
      simp [create_weights_Wm, h1, h2]
    rw [Finset.sum_congr rfl hrest]
    have h0 : create_weights_Wm Wm0 alpha kappa L 0 =
        create_weights_lambda alpha kappa L /
          ((L : ℚ) + create_weights_lambda alpha kappa L) := rfl
    rw [h0, Finset.sum_const, Finset.card_range, nsmul_eq_mul]
    push_cast
    field_simp
    ring
  · intro j h1 h2
    have hne : j ≠ 0 := by omega
    have hlt : j < 2 * L + 1 := by omega
    simp [create_weights_Wm, create_weights_Wc, hne, hlt]

/-- Witness for `create_weights_normalization` at
`alpha = 1, beta = 2, kappa = 2, L = 1` (so `L + lambda = 3 ≠ 0`). -/
theorem create_weights_normalization_witness :
    ((1 : ℚ) + create_weights_lambda 1 2 1 ≠ 0) ∧
    (∑ j ∈ Finset.range 3, create_weights_Wm (fun _ => 0) 1 2 1 j) = 1 :=
  ⟨by norm_num [create_weights_lambda],
   ((create_weights_normalization (fun _ => 0) (fun _ => 0) 1 2 2 1
      (by norm_num [create_weights_lambda])).1 : _)⟩

/-- C8: the covariance scaler multiplies exactly the first `2L` flattened
entries of `Sw` by `1/sqrt(lambda_rls)` and leaves every entry at flattened
index `≥ 2L` unchanged. -/
theorem scale_Sw_scales_first_2L_entries (sqrtf : ℚ → ℚ) (Sw : ℕ → ℚ)
    (lambda_rls : ℚ) (L : ℕ) :
    (∀ k, k < 2 * L →
      scale_Sw_with_lambda_rls_factor sqrtf Sw lambda_rls L k =
        Sw k * (1 / sqrtf lambda_rls)) ∧
    (∀ k, 2 * L ≤ k →
      scale_Sw_with_lambda_rls_factor sqrtf Sw lambda_rls L k = Sw k) := by
  constructor
  · intro k hk
    simp [scale_Sw_with_lambda_rls_factor, hk]
  · intro k hk
    simp [scale_Sw_with_lambda_rls_factor, Nat.not_lt.mpr hk]

/-- Witness for `scale_Sw_scales_first_2L_entries` at `L = 1`, `sqrtf = id`,
`lambda_rls = 4`, `Sw = const 1`: index `0` is scaled, index `2` is not. -/
theorem scale_Sw_scales_first_2L_entries_witness :
    scale_Sw_with_lambda_rls_factor (fun q => q) (fun _ => 1) 4 1 0 =
      1 * (1 / (4 : ℚ)) ∧
    scale_Sw_with_lambda_rls_factor (fun q => q) (fun _ => 1) 4 1 2 = 1 :=
  ⟨(scale_Sw_scales_first_2L_entries (fun q => q) (fun _ => 1) 4 1).1 0 (by norm_num),
   (scale_Sw_scales_first_2L_entries (fun q => q) (fun _ => 1) 4 1).2 2 (by norm_num)⟩

/-- C4: for every `L ≥ 2` every flattened index the covariance scaler
writes (its write set is exactly the first `2L` indices) lies inside the
`L×L` extent of `Sw`; for `L = 1` the scaler writes flattened index `1`,
which lies outside the `1`-element buffer. -/
theorem scale_Sw_writeSet_within_extent :
    (∀ L, 2 ≤ L → ∀ i ∈ scale_Sw_writeSet L, i < L * L) ∧
    (1 ∈ scale_Sw_writeSet 1 ∧ ¬(1 < 1 * 1)) ∧
    (∀ sqrtf Sw lambda_rls L k, k ∉ scale_Sw_writeSet L →
      scale_Sw_with_lambda_rls_factor sqrtf Sw lambda_rls L k = Sw k) := by
  refine ⟨?_, ⟨by decide, by decide⟩, ?_⟩
  · intro L hL i hi
    simp only [scale_Sw_writeSet, Finset.mem_range] at hi
    calc i < 2 * L := hi
    _ ≤ L * L := Nat.mul_le_mul_right L hL
  · intro sqrtf Sw lambda_rls L k hk
    simp only [scale_Sw_writeSet, Finset.mem_range, not_lt] at hk
    simp [scale_Sw_with_lambda_rls_factor, Nat.not_lt.mpr hk]

/-- Witness for `scale_Sw_writeSet_within_extent` at `L = 2`, `i = 3`. -/
theorem scale_Sw_writeSet_within_extent_witness : 3 < 2 * 2 :=
  scale_Sw_writeSet_within_extent.1 2 (by norm_num) 3 (by decide)

/-- C10: one tick of `sr_ukf_parameter_estimation` never writes the arrays
`d`, `Re` or `x` (the transition capability `G` is embedded as a pure
function, matching the proviso that `G` does not write its state
argument); only `what` and `Sw` come back modified. -/
theorem sr_ukf_parameter_estimation_frame (sqrtf : ℚ → ℚ)
    (qrR : (ℕ → ℚ) → ℕ → ℕ → (ℕ → ℚ))
    (cholupdate : (ℕ → ℚ) → (ℕ → ℚ) → ℕ → Bool → (ℕ → ℚ)) (recover : ℕ → ℚ)
    (G : (ℕ → ℚ) → (ℕ → ℚ) → (ℕ → ℚ)) (lambda_rls alpha beta : ℚ)
    (L : ℕ) (s : UkfState) :
    (sr_ukf_parameter_estimation sqrtf qrR cholupdate recover G lambda_rls
      alpha beta L s).d = s.d ∧
    (sr_ukf_parameter_estimation sqrtf qrR cholupdate recover G lambda_rls
      alpha beta L s).Re = s.Re ∧
    (sr_ukf_parameter_estimation sqrtf qrR cholupdate recover G lambda_rls
      alpha beta L s).x = s.x :=
  ⟨rfl, rfl, rfl⟩

theorem rowmajor_lt (i j L N : ℕ) (hi : i < L) (hj : j < N) :
    i * N + j < L * N := by
  calc i * N + j < i * N + N := Nat.add_lt_add_left hj _
  _ = (i + 1) * N := by ring
  _ ≤ L * N := Nat.mul_le_mul_right N hi

theorem rowmajor_div (i j N : ℕ) (hj : j < N) : (i * N + j) / N = i := by
  have hN : 0 < N := (Nat.zero_le j).trans_lt hj
  rw [Nat.mul_comm, Nat.mul_add_div hN, Nat.div_eq_of_lt hj, Nat.add_zero]

theorem rowmajor_mod (i j N : ℕ) (hj : j < N) : (i * N + j) % N = j := by
  rw [Nat.mul_comm, Nat.mul_add_mod, Nat.mod_eq_of_lt hj]

/-- C7: with `kappa = 3 − L` (as fixed by `sr_ukf_parameter_estimation`,
line 55) and `gamma = sqrt(L + lambda)`, the sigma-point matrix has column
`0` equal to `what`, columns `1..L` equal to `what[i] + gamma·Sw[i,j−1]`,
and columns `L+1..2L` equal to `what[i] − gamma·Sw[i,j−L−1]`. -/
theorem create_sigma_point_matrix_columns (sqrtf : ℚ → ℚ)
    (W0 what Sw : ℕ → ℚ) (alpha : ℚ) (L i : ℕ) (hi : i < L) :
    create_sigma_point_matrix sqrtf W0 what Sw alpha ((3 : ℚ) - (L : ℚ)) L
      (i * (2 * L + 1)) = what i ∧
    (∀ j, 1 ≤ j → j ≤ L →
      create_sigma_point_matrix sqrtf W0 what Sw alpha ((3 : ℚ) - (L : ℚ)) L
        (i * (2 * L + 1) + j) =
      what i +
        sqrtf ((L : ℚ) + create_weights_lambda alpha ((3 : ℚ) - (L : ℚ)) L) *
          Sw (i * L + (j - 1))) ∧
    (∀ j, L + 1 ≤ j → j ≤ 2 * L →
      create_sigma_point_matrix sqrtf W0 what Sw alpha ((3 : ℚ) - (L : ℚ)) L
        (i * (2 * L + 1) + j) =
      what i -
        sqrtf ((L : ℚ) + create_weights_lambda alpha ((3 : ℚ) - (L : ℚ)) L) *
          Sw (i * L + (j - (L + 1)))) := by
  have key : ∀ j, j < 2 * L + 1 →
      create_sigma_point_matrix sqrtf W0 what Sw alpha ((3 : ℚ) - (L : ℚ)) L
        (i * (2 * L + 1) + j) =
      (if j = 0 then what i
       else if j < L + 1 then
        what i +
          sqrtf ((L : ℚ) + create_weights_lambda alpha ((3 : ℚ) - (L : ℚ)) L) *
            Sw (i * L + (j - 1))
       else
        what i -
          sqrtf ((L : ℚ) + create_weights_lambda alpha ((3 : ℚ) - (L : ℚ)) L) *
            Sw (i * L + (j - (L + 1)))) := by
    intro j hj
    have hb := rowmajor_lt i j L (2 * L + 1) hi hj
    simp only [create_sigma_point_matrix, if_pos hb,
      rowmajor_div i j (2 * L + 1) hj, rowmajor_mod i j (2 * L + 1) hj]
  refine ⟨?_, ?_, ?_⟩
  · have h := key 0 (by omega)
    simpa using h
  · intro j h1 h2
    rw [key j (by omega), if_neg (by omega), if_pos (by omega)]
  · intro j h1 h2
    rw [key j (by omega), if_neg (by omega), if_neg (by omega)]

/-- Witness for `create_sigma_point_matrix_columns` at `L = 1`, `i = 0`,
`j = 1`, `sqrtf = id`, `alpha = 1` (so `lambda = 2`, `gamma = 3` under this
square-root realization), `what = const 1`, `Sw = const 5`. -/
theorem create_sigma_point_matrix_columns_witness :
    create_sigma_point_matrix (fun q => q) (fun _ => 0) (fun _ => 1)
      (fun _ => 5) 1 ((3 : ℚ) - (1 : ℚ)) 1 (0 * (2 * 1 + 1) + 1) =
    1 + ((1 : ℚ) + create_weights_lambda 1 ((3 : ℚ) - (1 : ℚ)) 1) * 5 :=
  ((create_sigma_point_matrix_columns (fun q => q) (fun _ => 0) (fun _ => 1)
    (fun _ => 5) 1 1 0 (by norm_num)).2.1 1 (by norm_num) (by norm_num) : _)

theorem tranF_create_cov_AT (sqrtf : ℚ → ℚ) (Wc D dhat Re : ℕ → ℚ)
    (L : ℕ) :
    tranF (create_cov_AT sqrtf Wc D dhat Re L) L (2 * L + L) =
      measurement_cov_A_spec sqrtf Wc D dhat Re L := by
  funext k
  by_cases hk : k < L * (2 * L + L)
  · have hL : 0 < L := by
      rcases Nat.eq_zero_or_pos L with h0 | h0
      · subst h0; simp at hk
      · exact h0
    have hc : k % L < L := Nat.mod_lt _ hL
    have hr : k / L < 2 * L + L := Nat.div_lt_of_lt_mul hk
    have hidx : k % L * (2 * L + L) + k / L < L * (2 * L + L) :=
      rowmajor_lt (k % L) (k / L) L (2 * L + L) hc hr
    simp only [tranF, measurement_cov_A_spec, if_pos hk, if_pos hidx,
      create_cov_AT, rowmajor_div (k % L) (k / L) (2 * L + L) hr,
      rowmajor_mod (k % L) (k / L) (2 * L + L) hr]
  · simp only [tranF, measurement_cov_A_spec, if_neg hk, create_cov_AT]

/-- C2: the measurement-covariance builder computes exactly the claimed
composition: `Sd` is the leading `L×L` block of the `R` factor of the QR
of the transposed augmented matrix (first `2L` columns
`sqrt(|Wc[1]|)·(D[:,j+1] − dhat)`, last `L` columns `sqrt(Re[i,j−2L])`),
then one rank-one Cholesky update with `b[i] = D[i,0] − dhat[i]`, in the
`+` direction iff `Wc[0] ≥ 0`. Holds for every realization of the abstract
`qr` and `cholupdate` collaborators. -/
theorem create_state_estimation_error_covariance_matrix_spec
    (sqrtf : ℚ → ℚ) (qrR : (ℕ → ℚ) → ℕ → ℕ → (ℕ → ℚ))
    (cholupdate : (ℕ → ℚ) → (ℕ → ℚ) → ℕ → Bool → (ℕ → ℚ))
    (Wc D dhat Re : ℕ → ℚ) (L : ℕ) :
    create_state_estimation_error_covariance_matrix sqrtf qrR cholupdate
      Wc D dhat Re L =
    measurement_cov_Sd_spec sqrtf qrR cholupdate Wc D dhat Re L := by
  have hdir : (if Wc 0 < 0 then false else true) = decide (0 ≤ Wc 0) := by
    by_cases h : Wc 0 < 0
    · simp [h, not_le.mpr h]
    · simp [h, not_lt.mp h]
  simp only [create_state_estimation_error_covariance_matrix,
    measurement_cov_Sd_spec, tranF_create_cov_AT, hdir]

theorem detF_one (A : ℕ → ℚ) : detF A 1 = A 0 := by
  simp [detF, toMatrix, Matrix.det_fin_one]

/-- When the determinant is non-zero, the spec-modelled `inv` returns the
genuine matrix inverse. -/
theorem inv_getD_eq_matrix_inv (A : ℕ → ℚ) (n : ℕ) (recover : ℕ → ℚ)
    (h : detF A n ≠ 0) :
    toMatrix ((inv A n).getD recover) n = (toMatrix A n)⁻¹ := by
  funext i j
  have hlt : i.1 * n + j.1 < n * n := rowmajor_lt i.1 j.1 n n i.isLt j.isLt
  show ((inv A n).getD recover) (i.1 * n + j.1) = (toMatrix A n)⁻¹ i j
  rw [inv, if_neg h, Option.getD_some, dif_pos hlt]
  simp only [rowmajor_div i.1 j.1 n j.isLt, rowmajor_mod i.1 j.1 n j.isLt,
    Fin.eta]
  rw [Matrix.inv_def, Ring.inverse_eq_inv, Matrix.smul_apply, smul_eq_mul,
    detF]

/-- C3: on the success path of the inverse (`det(Sd'Sd) ≠ 0`), the
corrector computes `Sd'Sd` as the genuine matrix product, inverts it with
a full matrix inverse, sets `what := what + K·(d − dhat)` with
`K = Pwd·(Sd'Sd)⁻¹`, and applies exactly `L` sequential rank-one Cholesky
downdates to `Sw`, one per column of `U = K·Sd`, left to right. -/
theorem corrector_structure
    (cholupdate : (ℕ → ℚ) → (ℕ → ℚ) → ℕ → Bool → (ℕ → ℚ))
    (recover Sw what dhat d Sd Pwd : ℕ → ℚ) (L : ℕ)
    (h : detF (corrector_SdTSd Sd L) L ≠ 0) :
    (∀ i j, i < L → j < L →
      corrector_SdTSd Sd L (i * L + j) =
        ∑ k ∈ Finset.range L, Sd (k * L + i) * Sd (k * L + j)) ∧
    toMatrix ((inv (corrector_SdTSd Sd L) L).getD recover) L =
      (toMatrix (corrector_SdTSd Sd L) L)⁻¹ ∧
    (∀ i j, i < L → j < L →
      corrector_K recover Sd Pwd L (i * L + j) =
        ∑ k ∈ Finset.range L,
          Pwd (i * L + k) *
            ((inv (corrector_SdTSd Sd L) L).getD recover) (k * L + j)) ∧
    (∀ i, i < L →
      (update_state_covarariance_matrix_and_state_estimation_vector
        cholupdate recover Sw what dhat d Sd Pwd L).2 i =
      what i + ∑ k ∈ Finset.range L,
        corrector_K recover Sd Pwd L (i * L + k) * (d k - dhat k)) ∧
    (update_state_covarariance_matrix_and_state_estimation_vector
        cholupdate recover Sw what dhat d Sd Pwd L).1 =
      (List.range L).foldl
        (fun S j => cholupdate S
          (fun i => if i < L then corrector_U recover Sd Pwd L (i * L + j)
                    else 0) L false) Sw := by
  refine ⟨?_, inv_getD_eq_matrix_inv _ _ _ h, ?_, ?_, ?_⟩
  · intro i j hi hj
    have hij : i * L + j < L * L := rowmajor_lt i j L L hi hj
    simp only [corrector_SdTSd, mulF, if_pos hij,
      rowmajor_div i j L hj, rowmajor_mod i j L hj]
    refine Finset.sum_congr rfl fun t ht => ?_
    simp only [Finset.mem_range] at ht
    have hit : i * L + t < L * L := rowmajor_lt i t L L hi ht
    rw [tranF, if_pos hit, rowmajor_div i t L ht, rowmajor_mod i t L ht]
  · intro i j hi hj
    have hij : i * L + j < L * L := rowmajor_lt i j L L hi hj
    simp only [corrector_K, mulF, if_pos hij,
      rowmajor_div i j L hj, rowmajor_mod i j L hj]
  · intro i hi
    have hi1 : i < L * 1 := by omega
    simp only [update_state_covarariance_matrix_and_state_estimation_vector,
      corrector_K, corrector_SdTSd, if_pos hi, mulF, if_pos hi1]
    congr 1
    refine Finset.sum_congr rfl fun t ht => ?_
    simp only [Finset.mem_range] at ht
    rw [Nat.mod_one, Nat.div_one, Nat.mul_one, Nat.add_zero, if_pos ht]
  · rfl

/-- Witness for `corrector_structure` at `L = 1` with `Sd = [2]`
(`det(Sd'Sd) = 4 ≠ 0`), `Pwd = [3]`, `d = [7]`, `dhat = [5]`,
`what = [1]`. -/
theorem corrector_structure_witness :
    detF (corrector_SdTSd (fun _ => 2) 1) 1 ≠ 0 ∧
    (update_state_covarariance_matrix_and_state_estimation_vector
        (fun S _ _ _ => S) (fun _ => 0) (fun _ => 1) (fun _ => 1)
        (fun _ => 5) (fun _ => 7) (fun _ => 2) (fun _ => 3) 1).2 0 =
      1 + ∑ k ∈ Finset.range 1,
        corrector_K (fun _ => 0) (fun _ => 2) (fun _ => 3) 1 (0 * 1 + k) *
          ((fun _ => (7 : ℚ)) k - (fun _ => (5 : ℚ)) k) := by
  have h : detF (corrector_SdTSd (fun _ => 2) 1) 1 ≠ 0 := by
    rw [detF_one]
    simp [corrector_SdTSd, mulF, tranF]
  exact ⟨h, (corrector_structure (fun S _ _ _ => S) (fun _ => 0) (fun _ => 1)
    (fun _ => 1) (fun _ => 5) (fun _ => 7) (fun _ => 2) (fun _ => 3) 1
    h).2.2.2.1 0 (by norm_num)⟩

/-- C9: when the supplied measurement equals the predicted measurement
mean, the gain correction `K·(d − dhat)` is the zero vector and the
corrector leaves `what` unchanged (for any inverse outcome, successful or
failed). -/
theorem corrector_zero_residual
    (cholupdate : (ℕ → ℚ) → (ℕ → ℚ) → ℕ → Bool → (ℕ → ℚ))
    (recover Sw what dhat d Sd Pwd : ℕ → ℚ) (L : ℕ)
    (h : ∀ i, i < L → d i = dhat i) :
    (∀ i, mulF (corrector_K recover Sd Pwd L)
      (fun t => if t < L then d t - dhat t else 0) L L 1 i = 0) ∧
    (∀ i,
      (update_state_covarariance_matrix_and_state_estimation_vector
        cholupdate recover Sw what dhat d Sd Pwd L).2 i = what i) := by
  have hdd : (fun t => if t < L then d t - dhat t else 0) = fun _ => (0 : ℚ) := by
    funext t
    by_cases ht : t < L
    · simp [ht, h t ht]
    · simp [ht]
  have hKd : ∀ i, mulF (corrector_K recover Sd Pwd L)
      (fun t => if t < L then d t - dhat t else 0) L L 1 i = 0 := by
    intro i
    rw [hdd]
    simp [mulF]
  refine ⟨hKd, fun i => ?_⟩
  have := hKd i
  simp only [update_state_covarariance_matrix_and_state_estimation_vector,
    corrector_K, corrector_SdTSd] at this ⊢
  by_cases hi : i < L
  · rw [if_pos hi, this, add_zero]
  · rw [if_neg hi]

/-- Witness for `corrector_zero_residual` at `L = 1`, `d = dhat = [5]`. -/
theorem corrector_zero_residual_witness :
    (update_state_covarariance_matrix_and_state_estimation_vector
      (fun S _ _ _ => S) (fun _ => 0) (fun _ => 1) (fun _ => 9)
      (fun _ => 5) (fun _ => 5) (fun _ => 2) (fun _ => 3) 1).2 0 = 9 :=
  (corrector_zero_residual (fun S _ _ _ => S) (fun _ => 0) (fun _ => 1)
    (fun _ => 9) (fun _ => 5) (fun _ => 5) (fun _ => 2) (fun _ => 3) 1
    (fun _ _ => rfl)).2 0

/-- C1 counterexample: a concrete tick (`L = 1`, `alpha = 1`, `beta = 2`,
`lambda_rls = 1/4`, zero transition output, zero `Re`, `Sw = [1]`) in which
the inverse operation fails — the internally computed `Sd'Sd` is singular,
so the spec-modelled `inv` returns `none` — yet the returned `Sw` differs
from the input `Sw`: the covariance scaler has already multiplied it by
`1/sqrt(1/4) = 2` before the failure, and `sr_ukf_parameter_estimation`
returns no failure indication. All collaborator realizations conform at
this input (QR of the zero matrix has `R = 0`; Cholesky updates by the
zero vector are the identity). -/
theorem sr_ukf_failure_leaves_Sw_mutated_cex :
    inv (corrector_SdTSd cex_Sd 1) 1 = none ∧
    (sr_ukf_parameter_estimation cex_sqrtf cex_qrR cex_cholupdate cex_recover
      cex_G (1 / 4) 1 2 1 cex_state).Sw 0 ≠ cex_state.Sw 0 := by
  constructor
  · have hSd : cex_Sd 0 = 0 := by
      simp [cex_Sd, create_state_estimation_error_covariance_matrix,
        cex_cholupdate, cex_qrR]
    simp [inv, detF_one, corrector_SdTSd, mulF, tranF, hSd]
  · simp [sr_ukf_parameter_estimation,
      update_state_covarariance_matrix_and_state_estimation_vector,
      cex_cholupdate, cex_state, scale_Sw_with_lambda_rls_factor, cex_sqrtf]

/-- C1 amended: when a collaborator inverse fails (singular `Sd'Sd`), the
tick does not report a "filter update failed, state not advanced" result
and does not leave `what`/`Sw` unchanged: the corrector still overwrites
`what` in place with `what + (Pwd·B)·(d − dhat)`, where `B` is the
unspecified buffer content the failed inverse left behind, and still
applies the `L` rank-one downdates to the (already rescaled) `Sw`. -/
theorem corrector_failure_still_mutates
    (cholupdate : (ℕ → ℚ) → (ℕ → ℚ) → ℕ → Bool → (ℕ → ℚ))
    (recover Sw what dhat d Sd Pwd : ℕ → ℚ) (L : ℕ)
    (h : inv (corrector_SdTSd Sd L) L = none) :
    (∀ i, i < L →
      (update_state_covarariance_matrix_and_state_estimation_vector
        cholupdate recover Sw what dhat d Sd Pwd L).2 i =
      what i + mulF (mulF Pwd recover L L L)
        (fun t => if t < L then d t - dhat t else 0) L L 1 i) ∧
    (update_state_covarariance_matrix_and_state_estimation_vector
        cholupdate recover Sw what dhat d Sd Pwd L).1 =
      (List.range L).foldl
        (fun S j => cholupdate S
          (fun i => if i < L then
              mulF (mulF Pwd recover L L L) Sd L L L (i * L + j)
            else 0) L false) Sw := by
  have h' : inv (mulF (tranF Sd L L) Sd L L L) L = none := h
  constructor
  · intro i hi
    simp only [update_state_covarariance_matrix_and_state_estimation_vector,
      h', Option.getD_none, if_pos hi]
  · simp only [update_state_covarariance_matrix_and_state_estimation_vector,
      h', Option.getD_none]

/-- Witness for `corrector_failure_still_mutates` at `L = 1`, `Sd = [0]`
(singular), `Pwd = [3]`, `d = [1]`, `dhat = [0]`, `what = [0]`. -/
theorem corrector_failure_still_mutates_witness :
    inv (corrector_SdTSd (fun _ => 0) 1) 1 = none ∧
    (update_state_covarariance_matrix_and_state_estimation_vector
      cex_cholupdate cex_recover (fun _ => 1) (fun _ => 0) (fun _ => 0)
      (fun _ => 1) (fun _ => 0) (fun _ => 3) 1).2 0 =
    (fun _ => (0 : ℚ)) 0 + mulF (mulF (fun _ => 3) cex_recover 1 1 1)
      (fun t => if t < 1 then (fun _ => (1 : ℚ)) t - (fun _ => (0 : ℚ)) t
                else 0) 1 1 1 0 := by
  have hnone : inv (corrector_SdTSd (fun _ => (0 : ℚ)) 1) 1 = none := by
    simp [inv, detF_one, corrector_SdTSd, mulF, tranF]
  exact ⟨hnone, (corrector_failure_still_mutates cex_cholupdate cex_recover
    (fun _ => 1) (fun _ => 0) (fun _ => 0) (fun _ => 1) (fun _ => 0)
    (fun _ => 3) 1 hnone).1 0 (by norm_num)⟩

end SrUkf
